import Mathlib

/-!
# Verification of the robowflex convenience layer

A shallow embedding of the robowflex sources:

* `robowflex_library/src/io/hdf5.cpp` — the HDF5 tree loader
  (`IO::HDF5Data`, `IO::HDF5File`);
* `tmpack/src/tmpack_interface.cpp` — the sequential multi-goal planner
  (`TMPackInterface::plan_linearly`);
* the request builder and planner wrappers (`MotionRequestBuilder`,
  `PipelinePlanner::plan`, `OMPL::OMPLInterfacePlanner::plan`).

C++ `std::map` nodes are embedded as association lists with
overwrite-or-append assignment; machine doubles are embedded as `ℚ`
(the code only copies joint values around, it never computes with them);
fallible or undefined-behaviour paths return `Option`.
-/

namespace Robowflex

/-! ## HDF5 type classes and data properties (`IO::HDF5Data`) -/

/-- The HDF5 type classes distinguished by `getDataProperties`: the switch
handles `H5T_INTEGER` and `H5T_FLOAT` and lumps every other class
(`H5T_TIME`, `H5T_STRING`, …) into its `default` branch, so the embedding
keeps the other classes as a tagged `other`. -/
inductive H5TClass where
  | integer
  | float
  | other (tag : Nat)
  deriving DecidableEq, Repr

/-- The HDF5 predefined native types returned by `getDataProperties`. -/
inductive PredType where
  | nativeInt
  | nativeDouble
  deriving DecidableEq, Repr

/-- `IO::HDF5Data::getDataProperties`: a switch on the stored type class.
`H5T_INTEGER` yields `(NATIVE_INT, sizeof(int), "integer")` and `H5T_FLOAT`
yields `(NATIVE_DOUBLE, sizeof(double), "double")` (4 and 8 bytes on the
LP64 targets robowflex builds for).  Every other class falls through the
`default:` branch and drops off the end of the non-void function —
undefined behaviour, embedded as `none`. -/
def getDataProperties : H5TClass → Option (PredType × Nat × String)
  | .integer => some (.nativeInt, 4, "integer")
  | .float => some (.nativeDouble, 8, "double")
  | .other _ => none

/-- `IO::HDF5Data::getDims`: returns `std::vector<hsize_t>(dims_, dims_ + rank_)`,
i.e. the stored dimension list (`rank_` is the number of dimensions). -/
def HDF5Data.getDims (dims : List Nat) : List Nat :=
  dims

/-- The `" x "`-separated dimension rendering inside `getStatus`
(`if (i > 0) ss << " x "; ss << dims_[i]`). -/
def dimsString : List Nat → String
  | [] => ""
  | [d] => toString d
  | d :: rest => toString d ++ " x " ++ dimsString rest

/-- `IO::HDF5Data::getStatus`: builds the status line from `rank_`, the type
name of `getDataProperties` and the dimensions.  It calls
`std::get<2>(getDataProperties())`, so for an unsupported type class it
inherits the undefined result (`none`). -/
def HDF5Data.getStatus (tclass : H5TClass) (dims : List Nat) : Option String :=
  (getDataProperties tclass).map fun props =>
    "HDF5DataSet " ++ "Rank: " ++ toString dims.length ++ ", " ++
      "Type: " ++ props.2.2 ++ ", " ++ "Dimensions: " ++ dimsString dims

/-! ## HDF5 containers and the loaded node tree (`IO::HDF5File`) -/

/-- A source HDF5 object: a group holds named children in index order
(HDF5 guarantees sibling names are unique), a dataset has a type class
and a dimension list.  `HDF5Data`'s constructor records exactly the type
class, rank and dimensions and eagerly reads the raw buffer, so a leaf is
captured by `(tclass, dims)`. -/
inductive HObj where
  | group (children : List (String × HObj))
  | dset (tclass : H5TClass) (dims : List Nat)

/-- A node of the loaded tree: `IO::HDF5File::Node`, a boost variant of a
`std::map<std::string, Node>` or a loaded dataset. -/
inductive Node where
  | nmap (entries : List (String × Node))
  | leaf (tclass : H5TClass) (dims : List Nat)

/-- The entry map of a node: `std::map<std::string, Node>` as an
association list. -/
abbrev NodeMap := List (String × Node)

/-- `std::map::operator[]` assignment: overwrite the entry if the key is
present, otherwise add an entry for the key. -/
def setEntry : NodeMap → String → Node → NodeMap
  | [], k, v => [(k, v)]
  | (k', v') :: rest, k, v =>
      if k' = k then (k, v) :: rest else (k', v') :: setEntry rest k v

/-- `std::map::find` / child lookup by name on an association list. -/
def lookupEntry : NodeMap → String → Option Node
  | [], _ => none
  | (k', v') :: rest, k => if k' = k then some v' else lookupEntry rest k

mutual

/-- `IO::HDF5File::loadData(node, location, name)` for a child `name` whose
object is `obj` (the C++ dispatches on `location.childObjType(name)` and
opens the child; sibling names are unique, so locating the child is a
lookup and we fuse it into the argument).  A dataset stores
`node[name] = HDF5Data(location, name)`; a group iterates
`listObjects(group)` in order and, for each child `obj`, assigns
`node[obj] = std::map()` and recursively fills that fresh map. -/
def loadData (name : String) (obj : HObj) (node : NodeMap) : NodeMap :=
  match obj with
  | .group children => loadDataGroup children node
  | .dset tclass dims => setEntry node name (.leaf tclass dims)

/-- The loop body of `loadData`'s `H5O_TYPE_GROUP` branch:
`for (auto obj : listObjects(group)) { node[obj] = {}; loadData(node[obj], group, obj); }`. -/
def loadDataGroup (children : List (String × HObj)) (node : NodeMap) : NodeMap :=
  match children with
  | [] => node
  | c :: rest => loadDataGroup rest (setEntry node c.1 (.nmap (loadData c.1 c.2 [])))

end

/-- `IO::HDF5File::HDF5File`: the constructor iterates the top-level
objects of the file and calls `loadData(data_, file_, obj)` on each,
threading the single root map `data_`.  `root` is the file's top-level
name/object list in index order. -/
def HDF5File.load : List (String × HObj) → NodeMap → NodeMap
  | [], node => node
  | c :: rest, node => HDF5File.load rest (loadData c.1 c.2 node)

/-- The tree owned by a freshly constructed `IO::HDF5File` (`data_`). -/
def HDF5File.build (root : List (String × HObj)) : NodeMap :=
  HDF5File.load root []

/-! ### The spec's mirror tree, and what the loader actually builds -/

mutual

/-- The node the spec's exact mirror assigns to a child object: a group
child becomes a nested mapping of its children, a dataset child becomes a
leaf.  (Stated from the spec's words, for comparison with
`HDF5File.build`.) -/
def mirrorNode : HObj → Node
  | .group children => .nmap (mirrorTree children)
  | .dset tclass dims => .leaf tclass dims

/-- The tree the spec describes: an exact mirror of the container, in
which every child appears under its own name. -/
def mirrorTree : List (String × HObj) → NodeMap
  | [] => []
  | (n, obj) :: rest => (n, mirrorNode obj) :: mirrorTree rest

end

mutual

/-- The node the loader actually produces for a child of a *group*: a
dataset child `n` becomes a mapping containing the leaf under the same
name again (the group loop pre-assigns `node[n] = {}` and the recursive
call then stores the leaf inside that fresh map), while a group child
becomes a mapping of its children's nodes. -/
def descrChild (n : String) : HObj → Node
  | .dset tclass dims => .nmap [(n, .leaf tclass dims)]
  | .group children => .nmap (descrGroup children)

/-- The entry list the loader produces for a group's children, in index
order (valid when sibling names do not collide with earlier entries). -/
def descrGroup : List (String × HObj) → NodeMap
  | [] => []
  | (n, obj) :: rest => (n, descrChild n obj) :: descrGroup rest

end

/-- The root map the loader actually produces: a top-level dataset becomes
a leaf under its own name, while a top-level *group* is flattened — its
children are inserted directly into the root map and the group's own name
produces no entry (the constructor passes the root map itself, not a fresh
nested map, to `loadData`). -/
def descrRoot : List (String × HObj) → NodeMap
  | [] => []
  | (n, .dset tclass dims) :: rest => (n, .leaf tclass dims) :: descrRoot rest
  | (_, .group children) :: rest => descrGroup children ++ descrRoot rest

/-! ### Key sets, wellformedness and leaf statistics -/

/-- Boolean membership of a key in a key list. -/
def keyMem (keys : List String) (k : String) : Bool :=
  match keys with
  | [] => false
  | k' :: rest => if k' = k then true else keyMem rest k

/-- All keys of a list pairwise distinct. -/
def distinctKeys : List String → Bool
  | [] => true
  | k :: rest => !keyMem rest k && distinctKeys rest

mutual

/-- HDF5 wellformedness of an object: sibling names inside every group are
unique (guaranteed by the HDF5 container format). -/
def HObj.wf : HObj → Bool
  | .dset _ _ => true
  | .group children => distinctKeys (children.map Prod.fst) && wfChildren children

/-- Wellformedness of each object in a child list. -/
def wfChildren : List (String × HObj) → Bool
  | [] => true
  | c :: rest => c.2.wf && wfChildren rest

end

/-- The names the constructor's traversal inserts at root level: top-level
dataset names, and — because top-level groups are flattened — the child
names of every top-level group. -/
def rootInsertedKeys : List (String × HObj) → List String
  | [] => []
  | (n, .dset _ _) :: rest => n :: rootInsertedKeys rest
  | (_, .group children) :: rest => children.map Prod.fst ++ rootInsertedKeys rest

mutual

/-- The dimension lists of the leaves of a node, in depth-first order. -/
def Node.leafShapes : Node → List (List Nat)
  | .leaf _ dims => [dims]
  | .nmap entries => nodeMapLeafShapes entries

/-- The dimension lists of all leaves of a node map, in entry order. -/
def nodeMapLeafShapes : NodeMap → List (List Nat)
  | [] => []
  | (_, node) :: rest => node.leafShapes ++ nodeMapLeafShapes rest

end

mutual

/-- The dimension lists of the datasets of a container object, depth first. -/
def HObj.dsetShapes : HObj → List (List Nat)
  | .dset _ dims => [dims]
  | .group children => childrenDsetShapes children

/-- The dimension lists of all datasets under a child list, in index order. -/
def childrenDsetShapes : List (String × HObj) → List (List Nat)
  | [] => []
  | (_, obj) :: rest => obj.dsetShapes ++ childrenDsetShapes rest

end

/-- The number of leaves of a node map. -/
def nodeMapLeafCount (m : NodeMap) : Nat :=
  (nodeMapLeafShapes m).length

/-- The number of datasets under a child list. -/
def childrenDsetCount (children : List (String × HObj)) : Nat :=
  (childrenDsetShapes children).length

/-! ### The public read interface of the loaded tree -/

/-- Lookup of a node by a nonempty name path into the tree. -/
def lookupPath : NodeMap → List String → Option Node
  | _, [] => none
  | m, [k] => lookupEntry m k
  | m, k :: rest =>
      match lookupEntry m k with
      | some (.nmap m') => lookupPath m' rest
      | _ => none

/-- An operation of the public interface of the loaded tree: the const
accessors of `IO::HDF5Data`, addressed by a name path. -/
inductive H5Op where
  | getDims (path : List String)
  | getData (path : List String)
  | getStatus (path : List String)

/-- The value an accessor returns: `getDims` the dimension list, `getData`
the raw buffer (captured by the type class and shape that were read),
`getStatus` the status line; `err` when the path does not name a loaded
dataset. -/
inductive H5Answer where
  | dims (l : List Nat)
  | raw (tclass : H5TClass) (dims : List Nat)
  | status (s : Option String)
  | err

/-- One accessor call in state-passing form.  `getDims`, `getData` and
`getStatus` are const methods reading `dims_`, `rank_`, `data_` and
`type_`; none of them writes a member, so the tree component is returned
as it was. -/
def applyOp (t : NodeMap) (op : H5Op) : H5Answer × NodeMap :=
  match op with
  | .getDims p =>
      (match lookupPath t p with
        | some (.leaf _ dims) => .dims (HDF5Data.getDims dims)
        | _ => .err, t)
  | .getData p =>
      (match lookupPath t p with
        | some (.leaf tclass dims) => .raw tclass dims
        | _ => .err, t)
  | .getStatus p =>
      (match lookupPath t p with
        | some (.leaf tclass dims) => .status (HDF5Data.getStatus tclass dims)
        | _ => .err, t)

/-- The tree after a sequence of public-interface calls. -/
def runOps (t : NodeMap) (ops : List H5Op) : NodeMap :=
  ops.foldl (fun s op => (applyOp s op).2) t

/-! ## Motion planning requests, responses and planners -/

/-- A joint value (a machine double in the source; the code only copies
joint values around, never computes with them, so `ℚ` is exact). -/
abbrev Val := ℚ

/-- The planning scene, an opaque collaborator (only ever passed through
to the external pipeline). -/
structure Scene where
  sceneId : Nat

/-- A goal constraint entry of `goal_constraints`: `setGoalConfiguration`
pushes the single `moveit_msgs::Constraints` built by the external
`constructGoalConstraints(goal_state, jmg_)` from the given joint values;
`setGoalRegion` pushes the single `Constraints` it assembles from one
position constraint and one orientation constraint for the given
end-effector and base frames. -/
inductive GoalConstraint where
  | ofConfiguration (joints : List Val)
  | ofRegion (eeName : String) (baseName : String)

/-- The parts of `planning_interface::MotionPlanRequest` the embedded code
reads or writes: the start state's joint positions
(`start_state.joint_state.position`) and the goal constraint list. -/
structure MotionPlanRequest where
  startStatePosition : List Val
  goalConstraints : List GoalConstraint

/-- The parts of `planning_interface::MotionPlanResponse` the embedded
code reads: the error code value (`error_code_.val`) and the final named
joint positions of the planned trajectory (what `getFinalJointPositions`
extracts). -/
structure MotionPlanResponse where
  errorCode : Int
  finalNamed : List (String × Val)

/-- A default-constructed `MotionPlanResponse`: no trajectory, error code
value zero (message fields are zero-initialised). -/
def defaultResponse : MotionPlanResponse :=
  { errorCode := 0, finalNamed := [] }

/-- `moveit_msgs::MoveItErrorCodes::FAILURE`. -/
def FAILURE : Int := 99999

/-- `MotionRequestBuilder::setGoalConfiguration`: builds a goal state from
the joint values, then `goal_constraints.clear()` followed by one
`push_back` of the constructed constraint — the resulting list is exactly
one entry. -/
def MotionRequestBuilder.setGoalConfiguration (req : MotionPlanRequest)
    (joints : List Val) : MotionPlanRequest :=
  { req with goalConstraints := [.ofConfiguration joints] }

/-- `MotionRequestBuilder::setGoalRegion`: assembles one `Constraints`
message (one position constraint plus one orientation constraint), then
`goal_constraints.clear()` followed by one `push_back`. -/
def MotionRequestBuilder.setGoalRegion (req : MotionPlanRequest)
    (eeName baseName : String) : MotionPlanRequest :=
  { req with goalConstraints := [.ofRegion eeName baseName] }

/-- `PipelinePlanner`: holds an optional planning pipeline whose engine is
the external `planning_pipeline::PlanningPipeline::generatePlan`, which
receives the scene, the request and the response object to fill. -/
structure PipelinePlanner where
  pipeline : Option (Scene → MotionPlanRequest → MotionPlanResponse → MotionPlanResponse)

/-- `PipelinePlanner::plan`: default-constructs a response, calls
`generatePlan` only when `pipeline_` is set, and returns the response.
The second component records whether the pipeline engine was invoked. -/
def PipelinePlanner.plan (p : PipelinePlanner) (scene : Scene)
    (request : MotionPlanRequest) : MotionPlanResponse × Bool :=
  match p.pipeline with
  | none => (defaultResponse, false)
  | some generatePlan => (generatePlan scene request defaultResponse, true)

/-- An `ompl_interface::ModelBasedPlanningContext`: external; the embedded
code only calls `clear()` (which resets internal planner state with no
effect observable here) and `solve(response)`, which fills the response
and reports a flag the caller ignores. -/
inductive ModelBasedPlanningContext where
  | mk (solve : MotionPlanResponse → MotionPlanResponse × Bool)

/-- `ModelBasedPlanningContext::solve`. -/
def ModelBasedPlanningContext.solve :
    ModelBasedPlanningContext → MotionPlanResponse → MotionPlanResponse × Bool
  | .mk f => f

/-- `ModelBasedPlanningContext::clear`: resets external planner internals. -/
def ModelBasedPlanningContext.clear
    (c : ModelBasedPlanningContext) : ModelBasedPlanningContext :=
  c

/-- `OMPL::OMPLInterfacePlanner`: wraps the external
`ompl_interface::OMPLInterface`, of which `plan` only uses
`getPlanningContext(scene, request)`. -/
structure OMPLInterfacePlanner where
  getPlanningContext : Scene → MotionPlanRequest → Option ModelBasedPlanningContext

/-- `OMPL::OMPLInterfacePlanner::plan`: constructs a response whose error
code is `FAILURE`, requests a planning context, and returns the failure
response immediately when no context is obtained; otherwise clears the
context and solves.  The second component records whether `solve` was
invoked. -/
def OMPLInterfacePlanner.plan (p : OMPLInterfacePlanner) (scene : Scene)
    (request : MotionPlanRequest) : MotionPlanResponse × Bool :=
  let response : MotionPlanResponse := { defaultResponse with errorCode := FAILURE }
  match p.getPlanningContext scene request with
  | none => (response, false)
  | some context =>
      let context := context.clear
      let (response, _result) := context.solve response
      (response, true)

/-! ## The robot state (`robowflex::Robot`) -/

/-- Association-list lookup of a named joint value
(`std::map<std::string, double>` access). -/
def alookup : List (String × Val) → String → Option Val
  | [], _ => none
  | (k, v) :: rest, j => if k = j then some v else alookup rest j

/-- Modelled from the spec: the `robowflex::Robot` class and its state
accessors `getState`/`setState` are not under `src/` (only their call
sites in `plan_linearly` are).  The spec treats a joint configuration as
"an ordered sequence of numeric joint values" over the robot's joints
(§3), with the un-modeled virtual/base joint contributing leading entries
(§4.1); so a robot is an ordered list of joint names (virtual ones first)
together with the current value of every joint. -/
structure Robot where
  joints : List String
  values : String → Val

/-- Modelled from the spec: `Robot::getState`, the robot's full ordered
joint-value vector. -/
def Robot.getState (r : Robot) : List Val :=
  r.joints.map r.values

/-- Modelled from the spec: `Robot::setState` on a map of named joint
positions — the named joints take the mapped values, all other joints
keep their current values. -/
def Robot.setState (r : Robot) (named : List (String × Val)) : Robot :=
  { r with
    values := fun j =>
      match alookup named j with
      | some v => v
      | none => r.values j }

/-- Modelled from the spec: `Robot::setState` on a full ordered value
vector — each listed joint takes the value at its position. -/
def Robot.setStateVec (r : Robot) (vals : List Val) : Robot :=
  { r with
    values := fun j =>
      match alookup (r.joints.zip vals) j with
      | some v => v
      | none => r.values j }

/-- Modelled from the spec: `getFinalJointPositions` (not under `src/`)
"extracts the final joint positions from the response" (§4.1(d)) as a map
from joint names to values. -/
def getFinalJointPositions (response : MotionPlanResponse) : List (String × Val) :=
  response.finalNamed

/-! ## The sequential multi-goal planner (`TMPackInterface::plan_linearly`) -/

/-- The hard-coded start-configuration prefix of `plan_linearly` (the
`tmp` vector "For r2_start.yml"), manually specifying the virtual-link
values that `start_state.joint_state.position` does not include. -/
def tmp : List Val :=
  [1.98552, 0.0242871, 9.14127e-05, 4.8366e-06, -2.4964e-06, 1, -6.53607e-07]

/-- The external collaborators of `plan_linearly`: the two injected
callback interfaces (pure virtual in this repository; per the spec they
apply "domain-specific constraint/scene mutations" to the request, with
the robot and the next start configuration available to the constraint
helper as read inputs), the planning pipeline invoked through
`planner.plan(scene, request.getRequest())`, and the external MoveIt
conversion inside `MotionRequestBuilder::setStartConfiguration` (which
builds a default robot state, sets the group's joint positions and stores
the converted message as the request's start state). -/
structure TMPEnv where
  scene : Scene
  constraintCB : MotionPlanRequest → List Val → Robot → List Val → MotionPlanRequest
  sceneGraphCB : MotionPlanRequest → List Val → MotionPlanRequest
  plannerPlan : Scene → MotionPlanRequest → MotionPlanResponse
  startMsg : List Val → List Val

/-- `MotionRequestBuilder::setStartConfiguration`: stores as the request's
start state the message MoveIt produces from the given joint vector. -/
def MotionRequestBuilder.setStartConfiguration (env : TMPEnv)
    (req : MotionPlanRequest) (joints : List Val) : MotionPlanRequest :=
  { req with startStatePosition := env.startMsg joints }

/-- One observable collaborator invocation of the `plan_linearly` loop,
with the data it was handed: the constraint-helper callback (with the
start configuration in effect), the scene-graph-helper callback, and the
planner call (with the response it returned). -/
inductive TEvent where
  | constraintCall (goal : List Val) (nextStart : List Val)
  | sceneGraphCall (goal : List Val)
  | plannerCall (goal : List Val) (response : MotionPlanResponse)

/-- A collaborator invocation stripped to its kind and goal. -/
inductive TEventKind where
  | constraintK (goal : List Val)
  | sceneGraphK (goal : List Val)
  | plannerK (goal : List Val)

/-- The kind of an event. -/
def TEvent.kind : TEvent → TEventKind
  | .constraintCall goal _ => .constraintK goal
  | .sceneGraphCall goal => .sceneGraphK goal
  | .plannerCall goal _ => .plannerK goal

/-- What a run of the `plan_linearly` loop leaves behind: the response
list it returns, the trace of collaborator invocations, and the final
robot, request and `next_start_joint_positions` values. -/
structure LoopOut where
  responses : List MotionPlanResponse
  trace : List TEvent
  robotF : Robot
  requestF : MotionPlanRequest
  nextStartF : List Val

/-- The body of one iteration of the `for (goal_conf : goals)` loop of
`plan_linearly`: invoke the constraint helper then the scene-graph
helper, call the planner once, then save the robot's state, set it to the
response's final named joint positions, read back the full joint vector
as the next start configuration, restore the saved state, and install the
next start configuration in the request.  Returns the planner's response
and the robot, request and `next_start_joint_positions` values the
iteration leaves behind. -/
def planStep (env : TMPEnv) (robot : Robot) (request : MotionPlanRequest)
    (nextStart : List Val) (goalConf : List Val) :
    MotionPlanResponse × Robot × MotionPlanRequest × List Val :=
  let request := env.constraintCB request goalConf robot nextStart
  let request := env.sceneGraphCB request goalConf
  let response := env.plannerPlan env.scene request
  let namedJointPositions := getFinalJointPositions response
  let temp := robot.getState
  let robot' := robot.setState namedJointPositions
  let nextStart' := robot'.getState
  let robot' := robot'.setStateVec temp
  let request := MotionRequestBuilder.setStartConfiguration env request nextStart'
  (response, robot', request, nextStart')

/-- The `for (goal_conf : goals)` loop of `plan_linearly`: run `planStep`
on each goal in order, threading the robot, request and next start
configuration, pushing each response unconditionally, and recording the
collaborator invocations. -/
def planLoop (env : TMPEnv) (robot : Robot) (request : MotionPlanRequest)
    (nextStart : List Val) : List (List Val) → LoopOut
  | [] =>
      { responses := [], trace := [], robotF := robot, requestF := request,
        nextStartF := nextStart }
  | goalConf :: rest =>
      let step := planStep env robot request nextStart goalConf
      let out := planLoop env step.2.1 step.2.2.1 step.2.2.2 rest
      { responses := step.1 :: out.responses,
        trace := .constraintCall goalConf nextStart :: .sceneGraphCall goalConf ::
          .plannerCall goalConf step.1 :: out.trace,
        robotF := out.robotF, requestF := out.requestF, nextStartF := out.nextStartF }

/-- `TMPackInterface::plan_linearly`: seeds
`next_start_joint_positions` with the request's current start-state joint
positions, prepends the hard-coded `tmp` prefix
(`tmp.insert(tmp.end(), ...)`), and runs the loop over the goals. -/
def plan_linearly (env : TMPEnv) (robot : Robot) (request : MotionPlanRequest)
    (goals : List (List Val)) : LoopOut :=
  let nextStartJointPositions := request.startStatePosition
  let nextStartJointPositions := tmp ++ nextStartJointPositions
  planLoop env robot request nextStartJointPositions goals

/-- The start configurations handed to successive planner calls, read off
the trace (the value passed to the constraint helper of each iteration,
which is also the start configuration installed in the request before
that iteration's planner call). -/
def startsOf (trace : List TEvent) : List (List Val) :=
  trace.filterMap fun e =>
    match e with
    | .constraintCall _ nextStart => some nextStart
    | _ => none

/-- The responses recorded at the planner calls of a trace, in order. -/
def plannerResponsesOf (trace : List TEvent) : List MotionPlanResponse :=
  trace.filterMap fun e =>
    match e with
    | .plannerCall _ response => some response
    | _ => none

/-! ## Lemmas about the plan_linearly loop -/

theorem planStep_response (env : TMPEnv) (robot : Robot) (request : MotionPlanRequest)
    (nextStart goalConf : List Val) :
    (planStep env robot request nextStart goalConf).1 =
      env.plannerPlan env.scene
        (env.sceneGraphCB (env.constraintCB request goalConf robot nextStart) goalConf) := rfl

theorem planStep_robot (env : TMPEnv) (robot : Robot) (request : MotionPlanRequest)
    (nextStart goalConf : List Val) :
    (planStep env robot request nextStart goalConf).2.1 =
      (robot.setState (getFinalJointPositions
        (planStep env robot request nextStart goalConf).1)).setStateVec
        robot.getState := rfl

theorem planStep_nextStart (env : TMPEnv) (robot : Robot) (request : MotionPlanRequest)
    (nextStart goalConf : List Val) :
    (planStep env robot request nextStart goalConf).2.2.2 =
      (robot.setState (getFinalJointPositions
        (planStep env robot request nextStart goalConf).1)).getState := rfl

theorem planLoop_trace_cons (env : TMPEnv) (robot : Robot) (request : MotionPlanRequest)
    (nextStart goalConf : List Val) (rest : List (List Val)) :
    (planLoop env robot request nextStart (goalConf :: rest)).trace =
      .constraintCall goalConf nextStart :: .sceneGraphCall goalConf ::
        .plannerCall goalConf (planStep env robot request nextStart goalConf).1 ::
        (planLoop env (planStep env robot request nextStart goalConf).2.1
          (planStep env robot request nextStart goalConf).2.2.1
          (planStep env robot request nextStart goalConf).2.2.2 rest).trace := rfl

theorem planLoop_responses_cons (env : TMPEnv) (robot : Robot) (request : MotionPlanRequest)
    (nextStart goalConf : List Val) (rest : List (List Val)) :
    (planLoop env robot request nextStart (goalConf :: rest)).responses =
      (planStep env robot request nextStart goalConf).1 ::
        (planLoop env (planStep env robot request nextStart goalConf).2.1
          (planStep env robot request nextStart goalConf).2.2.1
          (planStep env robot request nextStart goalConf).2.2.2 rest).responses := rfl

theorem startsOf_cons (g ns : List Val) (r : MotionPlanResponse) (t : List TEvent) :
    startsOf (.constraintCall g ns :: .sceneGraphCall g :: .plannerCall g r :: t) =
      ns :: startsOf t := rfl

theorem planLoop_responses_length (env : TMPEnv) (goals : List (List Val)) :
    ∀ (robot : Robot) (request : MotionPlanRequest) (nextStart : List Val),
    (planLoop env robot request nextStart goals).responses.length = goals.length := by
  induction goals with
  | nil => intro robot request nextStart; rfl
  | cons goal rest ih =>
      intro robot request nextStart
      simp only [planLoop, List.length_cons]
      rw [ih]

theorem planLoop_trace_kinds (env : TMPEnv) (goals : List (List Val)) :
    ∀ (robot : Robot) (request : MotionPlanRequest) (nextStart : List Val),
    (planLoop env robot request nextStart goals).trace.map TEvent.kind =
      (goals.map fun g => [TEventKind.constraintK g, TEventKind.sceneGraphK g,
        TEventKind.plannerK g]).flatten := by
  induction goals with
  | nil => intro robot request nextStart; rfl
  | cons goal rest ih =>
      intro robot request nextStart
      simp only [planLoop, List.map_cons, List.flatten, List.cons_append, List.nil_append]
      rw [ih]
      rfl

theorem planLoop_responses_eq_trace (env : TMPEnv) (goals : List (List Val)) :
    ∀ (robot : Robot) (request : MotionPlanRequest) (nextStart : List Val),
    (planLoop env robot request nextStart goals).responses =
      plannerResponsesOf (planLoop env robot request nextStart goals).trace := by
  induction goals with
  | nil => intro robot request nextStart; rfl
  | cons goal rest ih =>
      intro robot request nextStart
      simp only [planLoop, plannerResponsesOf, List.filterMap_cons]
      rw [ih]
      rfl

/-! ## Lemmas about the robot state round trip -/

theorem alookup_zip_map_self (f : String → Val) :
    ∀ (l : List String) (j : String), j ∈ l →
    alookup (l.zip (l.map f)) j = some (f j) := by
  intro l
  induction l with
  | nil => intro j h; cases h
  | cons k rest ih =>
      intro j hj
      simp only [List.map_cons, List.zip_cons_cons, alookup]
      by_cases hk : k = j
      · subst hk; simp
      · rw [if_neg hk]
        exact ih j (by cases hj with
          | head => exact absurd rfl hk
          | tail _ h => exact h)

theorem setState_joints (r : Robot) (named : List (String × Val)) :
    (r.setState named).joints = r.joints := rfl

theorem setStateVec_joints (r : Robot) (vals : List Val) :
    (r.setStateVec vals).joints = r.joints := rfl

/-- Restoring the saved full state vector brings every joint of the robot
back to its original value. -/
theorem restore_values (r : Robot) (named : List (String × Val)) :
    ∀ j ∈ r.joints, ((r.setState named).setStateVec r.getState).values j = r.values j := by
  intro j hj
  simp only [Robot.setStateVec, Robot.setState, Robot.getState]
  rw [alookup_zip_map_self r.values r.joints j hj]

/-- The saved/restored robot has an unchanged observable state. -/
theorem restore_getState (r : Robot) (named : List (String × Val)) :
    ((r.setState named).setStateVec r.getState).getState = r.getState := by
  show r.joints.map _ = r.joints.map r.values
  exact List.map_congr_left (restore_values r named)

/-- Robots with the same joints and the same values on those joints read
back the same state after any named update. -/
theorem setState_getState_congr (r r' : Robot) (named : List (String × Val))
    (hj : r'.joints = r.joints) (hv : ∀ j ∈ r.joints, r'.values j = r.values j) :
    (r'.setState named).getState = (r.setState named).getState := by
  simp only [Robot.getState, Robot.setState, hj]
  refine List.map_congr_left fun j hjm => ?_
  cases halo : alookup named j with
  | some v => rfl
  | none => exact hv j hjm

/-- Across any run of the loop the robot's joint list is unchanged and
every joint keeps its value (each iteration saves and restores). -/
theorem planLoop_robot_preserved (env : TMPEnv) (goals : List (List Val)) :
    ∀ (robot : Robot) (request : MotionPlanRequest) (nextStart : List Val),
    (planLoop env robot request nextStart goals).robotF.joints = robot.joints ∧
      ∀ j ∈ robot.joints,
        (planLoop env robot request nextStart goals).robotF.values j = robot.values j := by
  induction goals with
  | nil => intro robot request nextStart; exact ⟨rfl, fun j _ => rfl⟩
  | cons goal rest ih =>
      intro robot request nextStart
      obtain ⟨hj, hv⟩ := ih (planStep env robot request nextStart goal).2.1
        (planStep env robot request nextStart goal).2.2.1
        (planStep env robot request nextStart goal).2.2.2
      refine ⟨hj, fun j hjm => ?_⟩
      exact (hv j hjm).trans (restore_values robot _ j hjm)

/-- Characterisation of the start configurations the loop passes to its
successive planner calls: the one in effect first is the seed handed in,
and each later one is the robot's full joint vector after overwriting the
joints named in the previous response with their final positions — the
robot the loop consults is (observably) the original robot throughout,
because every iteration restores the state it saved. -/
theorem planLoop_starts (env : TMPEnv) (goals : List (List Val)) :
    ∀ (robot : Robot) (request : MotionPlanRequest) (nextStart : List Val),
    startsOf (planLoop env robot request nextStart goals).trace =
      (nextStart ::
        (planLoop env robot request nextStart goals).responses.dropLast.map
          (fun resp => (robot.setState (getFinalJointPositions resp)).getState)).take
        goals.length := by
  induction goals with
  | nil => intro robot request nextStart; rfl
  | cons goal rest ih =>
      intro robot request nextStart
      cases rest with
      | nil => rfl
      | cons goal2 rest2 =>
          rw [planLoop_trace_cons, startsOf_cons, planLoop_responses_cons,
            ih (planStep env robot request nextStart goal).2.1
              (planStep env robot request nextStart goal).2.2.1
              (planStep env robot request nextStart goal).2.2.2]
          have hne : (planLoop env (planStep env robot request nextStart goal).2.1
              (planStep env robot request nextStart goal).2.2.1
              (planStep env robot request nextStart goal).2.2.2
              (goal2 :: rest2)).responses ≠ [] := by
            intro h
            have hlen := planLoop_responses_length env (goal2 :: rest2)
              (planStep env robot request nextStart goal).2.1
              (planStep env robot request nextStart goal).2.2.1
              (planStep env robot request nextStart goal).2.2.2
            rw [h] at hlen
            simp at hlen
          rw [List.dropLast_cons_of_ne_nil hne, List.map_cons, List.length_cons,
            List.take_succ_cons]
          congr 1
          rw [planStep_nextStart]
          congr 1
          refine congrArg (List.take rest2.length) ?_
          refine List.map_congr_left fun resp _ => ?_
          exact setState_getState_congr robot _ (getFinalJointPositions resp) rfl
            (restore_values robot _)

/-! ## Lemmas about the HDF5 loader -/

theorem keyMem_cons (k' k : String) (rest : List String) :
    keyMem (k' :: rest) k = if k' = k then true else keyMem rest k := rfl

theorem distinctKeys_cons (k : String) (rest : List String) :
    distinctKeys (k :: rest) = (!keyMem rest k && distinctKeys rest) := rfl

theorem keyMem_append (a b : List String) (k : String) :
    keyMem (a ++ b) k = (keyMem a k || keyMem b k) := by
  induction a with
  | nil => rfl
  | cons k' rest ih =>
      show keyMem (k' :: (rest ++ b)) k = (keyMem (k' :: rest) k || keyMem b k)
      rw [keyMem_cons, keyMem_cons]
      by_cases h : k' = k
      · simp [h]
      · rw [if_neg h, if_neg h, ih]

theorem distinctKeys_append (a b : List String) (h : distinctKeys (a ++ b) = true) :
    distinctKeys a = true ∧ distinctKeys b = true ∧
      ∀ k, keyMem b k = true → keyMem a k = false := by
  induction a with
  | nil => exact ⟨rfl, h, fun k _ => rfl⟩
  | cons k' rest ih =>
      rw [show (k' :: rest) ++ b = k' :: (rest ++ b) from rfl, distinctKeys_cons,
        Bool.and_eq_true, Bool.not_eq_true', keyMem_append,
        Bool.or_eq_false_iff] at h
      obtain ⟨⟨hmem1, hmem2⟩, hrest⟩ := h
      obtain ⟨ha, hb, hdisj⟩ := ih hrest
      refine ⟨?_, hb, fun k hk => ?_⟩
      · rw [distinctKeys_cons, Bool.and_eq_true, Bool.not_eq_true']
        exact ⟨hmem1, ha⟩
      · rw [keyMem_cons]
        by_cases hkk : k' = k
        · subst hkk
          rw [hmem2] at hk
          cases hk
        · rw [if_neg hkk]
          exact hdisj k hk

theorem setEntry_not_mem (k : String) (v : Node) :
    ∀ m : NodeMap, keyMem (m.map Prod.fst) k = false → setEntry m k v = m ++ [(k, v)] := by
  intro m
  induction m with
  | nil => intro _; rfl
  | cons e rest ih =>
      intro h
      simp only [List.map_cons, keyMem] at h
      by_cases he : e.1 = k
      · rw [if_pos he] at h; cases h
      · rw [if_neg he] at h
        show setEntry (e :: rest) k v = e :: rest ++ [(k, v)]
        obtain ⟨e1, e2⟩ := e
        simp only [setEntry, if_neg he, List.cons_append]
        rw [ih h]

theorem descrGroup_keys :
    ∀ children : List (String × HObj),
    (descrGroup children).map Prod.fst = children.map Prod.fst := by
  intro children
  induction children with
  | nil => rfl
  | cons c rest ih =>
      obtain ⟨n, obj⟩ := c
      simp only [descrGroup, List.map_cons, ih]

theorem rootInsertedKeys_dset (n : String) (tclass : H5TClass) (dims : List Nat)
    (rest : List (String × HObj)) :
    rootInsertedKeys ((n, .dset tclass dims) :: rest) = n :: rootInsertedKeys rest := rfl

theorem rootInsertedKeys_group (n : String) (children rest : List (String × HObj)) :
    rootInsertedKeys ((n, .group children) :: rest) =
      children.map Prod.fst ++ rootInsertedKeys rest := rfl

mutual

/-- What the group branch of the loader produces for a wellformed child:
the doubly wrapped leaf for a dataset, the group's own entry list for a
group. -/
theorem loadData_nmap (n : String) (obj : HObj) (hw : obj.wf = true) :
    Node.nmap (loadData n obj []) = descrChild n obj := by
  cases obj with
  | dset tclass dims => rfl
  | group children =>
      have h : distinctKeys (children.map Prod.fst) = true ∧ wfChildren children = true := by
        simpa only [HObj.wf, Bool.and_eq_true] using hw
      show Node.nmap (loadDataGroup children []) = Node.nmap (descrGroup children)
      rw [loadDataGroup_descr children [] h.2 h.1 (fun k _ => rfl)]
      rfl

/-- The group loop of the loader appends, in index order, one entry per
child to the node map it was handed, provided the child names are unique
among themselves and absent from the map. -/
theorem loadDataGroup_descr (children : List (String × HObj)) (node : NodeMap)
    (hw : wfChildren children = true)
    (hd : distinctKeys (children.map Prod.fst) = true)
    (hdisj : ∀ k, keyMem (children.map Prod.fst) k = true →
      keyMem (node.map Prod.fst) k = false) :
    loadDataGroup children node = node ++ descrGroup children := by
  cases children with
  | nil => exact (List.append_nil node).symm
  | cons c rest =>
      obtain ⟨n, obj⟩ := c
      have hwc : obj.wf = true ∧ wfChildren rest = true := by
        simpa only [wfChildren, Bool.and_eq_true] using hw
      have hd' : keyMem (rest.map Prod.fst) n = false ∧
          distinctKeys (rest.map Prod.fst) = true := by
        rw [List.map_cons, distinctKeys_cons, Bool.and_eq_true, Bool.not_eq_true'] at hd
        exact hd
      have hn : keyMem (node.map Prod.fst) n = false :=
        hdisj n (by rw [List.map_cons, keyMem_cons, if_pos rfl])
      have hdisj2 : ∀ k, keyMem (rest.map Prod.fst) k = true →
          keyMem ((node ++ [(n, descrChild n obj)]).map Prod.fst) k = false := by
        intro k hk
        rw [List.map_append, keyMem_append, Bool.or_eq_false_iff]
        constructor
        · refine hdisj k ?_
          rw [List.map_cons, keyMem_cons]
          by_cases hnk : n = k
          · rw [if_pos hnk]
          · rw [if_neg hnk]; exact hk
        · show keyMem [n] k = false
          rw [keyMem_cons]
          by_cases hnk : n = k
          · subst hnk; rw [hd'.1] at hk; cases hk
          · rw [if_neg hnk]; rfl
      show loadDataGroup rest (setEntry node n (.nmap (loadData n obj []))) =
        node ++ descrGroup ((n, obj) :: rest)
      rw [setEntry_not_mem n _ node hn, loadData_nmap n obj hwc.1,
        loadDataGroup_descr rest (node ++ [(n, descrChild n obj)]) hwc.2 hd'.2 hdisj2]
      simp only [descrGroup, List.append_assoc, List.singleton_append]

end

/-- The constructor's traversal appends, to the map it threads, one leaf
entry per top-level dataset and the child entries of each top-level
group, provided the inserted names are distinct and absent from the map. -/
theorem load_descr :
    ∀ (root : List (String × HObj)) (node : NodeMap),
    wfChildren root = true →
    distinctKeys (rootInsertedKeys root) = true →
    (∀ k, keyMem (rootInsertedKeys root) k = true →
      keyMem (node.map Prod.fst) k = false) →
    HDF5File.load root node = node ++ descrRoot root := by
  intro root
  induction root with
  | nil => intro node _ _ _; exact (List.append_nil node).symm
  | cons c rest ih =>
      intro node hw hd hdisj
      obtain ⟨n, obj⟩ := c
      have hwc : obj.wf = true ∧ wfChildren rest = true := by
        simpa only [wfChildren, Bool.and_eq_true] using hw
      cases obj with
      | dset tclass dims =>
          rw [rootInsertedKeys_dset] at hd hdisj
          have hd' : keyMem (rootInsertedKeys rest) n = false ∧
              distinctKeys (rootInsertedKeys rest) = true := by
            rw [distinctKeys_cons, Bool.and_eq_true, Bool.not_eq_true'] at hd
            exact hd
          have hn : keyMem (node.map Prod.fst) n = false :=
            hdisj n (by rw [keyMem_cons, if_pos rfl])
          have hdisj2 : ∀ k, keyMem (rootInsertedKeys rest) k = true →
              keyMem ((node ++ [(n, Node.leaf tclass dims)]).map Prod.fst) k = false := by
            intro k hk
            rw [List.map_append, keyMem_append, Bool.or_eq_false_iff]
            constructor
            · refine hdisj k ?_
              rw [keyMem_cons]
              by_cases hnk : n = k
              · rw [if_pos hnk]
              · rw [if_neg hnk]; exact hk
            · show keyMem [n] k = false
              rw [keyMem_cons]
              by_cases hnk : n = k
              · subst hnk; rw [hd'.1] at hk; cases hk
              · rw [if_neg hnk]; rfl
          show HDF5File.load rest (setEntry node n (.leaf tclass dims)) =
            node ++ descrRoot ((n, .dset tclass dims) :: rest)
          rw [setEntry_not_mem n _ node hn,
            ih (node ++ [(n, Node.leaf tclass dims)]) hwc.2 hd'.2 hdisj2]
          simp only [descrRoot, List.append_assoc, List.singleton_append]
      | group children =>
          have hg : distinctKeys (children.map Prod.fst) = true ∧
              wfChildren children = true := by
            simpa only [HObj.wf, Bool.and_eq_true] using hwc.1
          rw [rootInsertedKeys_group] at hd hdisj
          obtain ⟨hdc, hdr, hcross⟩ := distinctKeys_append _ _ hd
          have hdisj2 : ∀ k, keyMem (rootInsertedKeys rest) k = true →
              keyMem ((node ++ descrGroup children).map Prod.fst) k = false := by
            intro k hk
            rw [List.map_append, keyMem_append, Bool.or_eq_false_iff]
            refine ⟨hdisj k (by rw [keyMem_append, hk, Bool.or_true]), ?_⟩
            rw [descrGroup_keys]
            exact hcross k hk
          show HDF5File.load rest (loadDataGroup children node) =
            node ++ descrRoot ((n, .group children) :: rest)
          rw [loadDataGroup_descr children node hg.2 hg.1
              (fun k hk => hdisj k (by rw [keyMem_append, hk, Bool.true_or])),
            ih (node ++ descrGroup children) hwc.2 hdr hdisj2]
          simp only [descrRoot, List.append_assoc]

theorem nodeMapLeafShapes_append (a b : NodeMap) :
    nodeMapLeafShapes (a ++ b) = nodeMapLeafShapes a ++ nodeMapLeafShapes b := by
  induction a with
  | nil => rfl
  | cons e rest ih =>
      obtain ⟨n, node⟩ := e
      show node.leafShapes ++ nodeMapLeafShapes (rest ++ b) =
        node.leafShapes ++ nodeMapLeafShapes rest ++ nodeMapLeafShapes b
      rw [ih, List.append_assoc]

mutual

/-- A loader-produced child node holds exactly the dataset shapes of the
child object, in depth-first order. -/
theorem leafShapes_descrChild (n : String) (obj : HObj) :
    (descrChild n obj).leafShapes = obj.dsetShapes := by
  cases obj with
  | dset tclass dims => rfl
  | group children =>
      show nodeMapLeafShapes (descrGroup children) = childrenDsetShapes children
      exact leafShapes_descrGroup children

/-- The loader-produced entries of a group hold exactly the dataset
shapes of its children, in index order. -/
theorem leafShapes_descrGroup (children : List (String × HObj)) :
    nodeMapLeafShapes (descrGroup children) = childrenDsetShapes children := by
  cases children with
  | nil => rfl
  | cons c rest =>
      obtain ⟨n, obj⟩ := c
      show (descrChild n obj).leafShapes ++ nodeMapLeafShapes (descrGroup rest) =
        obj.dsetShapes ++ childrenDsetShapes rest
      rw [leafShapes_descrChild n obj, leafShapes_descrGroup rest]

end

theorem leafShapes_descrRoot :
    ∀ root : List (String × HObj),
    nodeMapLeafShapes (descrRoot root) = childrenDsetShapes root := by
  intro root
  induction root with
  | nil => rfl
  | cons c rest ih =>
      obtain ⟨n, obj⟩ := c
      cases obj with
      | dset tclass dims =>
          show [dims] ++ nodeMapLeafShapes (descrRoot rest) =
            [dims] ++ childrenDsetShapes rest
          rw [ih]
      | group children =>
          show nodeMapLeafShapes (descrGroup children ++ descrRoot rest) =
            childrenDsetShapes children ++ childrenDsetShapes rest
          rw [nodeMapLeafShapes_append, leafShapes_descrGroup children, ih]

theorem applyOp_tree (t : NodeMap) (op : H5Op) : (applyOp t op).2 = t := by
  cases op <;> rfl

theorem runOps_id : ∀ (ops : List H5Op) (t : NodeMap), runOps t ops = t := by
  intro ops
  induction ops with
  | nil => intro t; rfl
  | cons op rest ih =>
      intro t
      show runOps (applyOp t op).2 rest = t
      rw [applyOp_tree]
      exact ih t

/-! ## Claim C1 -/

/-- A concrete robot for exercising `plan_linearly`: seven virtual-link
joints followed by one arm joint, every joint currently at zero. -/
def c1Robot : Robot :=
  { joints := ["v1", "v2", "v3", "v4", "v5", "v6", "v7", "j1"], values := fun _ => 0 }

/-- A concrete environment whose callbacks leave the request unchanged and
whose planner always reports final position `5` for joint `j1`. -/
def c1Env : TMPEnv :=
  { scene := ⟨0⟩
  , constraintCB := fun req _ _ _ => req
  , sceneGraphCB := fun req _ => req
  , plannerPlan := fun _ _ => { errorCode := 1, finalNamed := [("j1", 5)] }
  , startMsg := fun v => v }

/-- A concrete initial request. -/
def c1Request : MotionPlanRequest :=
  { startStatePosition := [0], goalConstraints := [] }

/-- Two goals, so that a second planner call happens. -/
def c1Goals : List (List Val) := [[1], [2]]

/-- C1, counterexample: with the robot's virtual joints at `0`, the start
configuration passed to planning call 2 is `[0,0,0,0,0,0,0,5]` — the
robot's own virtual-joint values followed by the joint-position result
`[5]` of call 1 — and this differs from the hard-coded prefix `tmp`
concatenated with that result, because the prefix is applied only to the
initial seed, never inside the loop. -/
theorem c1_counterexample :
    (startsOf (plan_linearly c1Env c1Robot c1Request c1Goals).trace).get? 1 =
      some [0, 0, 0, 0, 0, 0, 0, 5] ∧
    ((plan_linearly c1Env c1Robot c1Request c1Goals).responses.get? 0).map
      (fun resp => (getFinalJointPositions resp).map Prod.snd) = some [5] ∧
    (startsOf (plan_linearly c1Env c1Robot c1Request c1Goals).trace).get? 1 ≠
      some (tmp ++ [5]) := by
  refine ⟨by decide, rfl, ?_⟩
  have h1 : (startsOf (plan_linearly c1Env c1Robot c1Request c1Goals).trace).get? 1 =
      some [0, 0, 0, 0, 0, 0, 0, (5 : Val)] := by decide
  rw [h1]
  intro h
  have h2 := Option.some.inj h
  have h0 : (0 : ℚ) = 1.98552 := by
    simpa [tmp] using congrArg (fun l => l.headI) h2
  norm_num at h0

/-- C1 (amended): the start configuration passed to planning call 1 is the
hard-coded prefix `tmp` concatenated with the request's initial
start-state joint positions; the start configuration passed to planning
call N+1 is the robot's full joint vector after overwriting the joints
named in call N's response with their final positions (so it begins with
the hard-coded prefix only when the robot's remaining joints already hold
those values). -/
theorem c1_next_start_characterisation (env : TMPEnv) (robot : Robot)
    (request : MotionPlanRequest) (goals : List (List Val)) :
    startsOf (plan_linearly env robot request goals).trace =
      ((tmp ++ request.startStatePosition) ::
        (plan_linearly env robot request goals).responses.dropLast.map
          (fun resp => (robot.setState (getFinalJointPositions resp)).getState)).take
        goals.length :=
  planLoop_starts env goals robot request (tmp ++ request.startStatePosition)

/-! ## Claim C2 -/

/-- A container with one top-level group `g` holding one float dataset
`d` of shape `[2]`. -/
def c2Root : List (String × HObj) := [("g", .group [("d", .dset .float [2])])]

/-- A container with two top-level groups whose datasets share a name. -/
def c2RootCollision : List (String × HObj) :=
  [("g1", .group [("d", .dset .integer [1])]), ("g2", .group [("d", .dset .float [3])])]

/-- C2, counterexample: the loaded tree does not mirror the container.
For a top-level group `g` holding dataset `d`, the loader produces
`{"d" ↦ {"d" ↦ leaf}}` — the group child `g` produces no entry under its
own name (its children are spliced into the root), and the dataset child
`d` produces a nested mapping rather than a leaf under its name.  With
two top-level groups whose datasets share a name, one leaf overwrites the
other, so the leaf count (1) differs from the dataset count (2). -/
theorem c2_counterexample :
    HDF5File.build c2Root = [("d", .nmap [("d", .leaf .float [2])])] ∧
    mirrorTree c2Root = [("g", .nmap [("d", .leaf .float [2])])] ∧
    lookupEntry (HDF5File.build c2Root) "g" = none ∧
    nodeMapLeafCount (HDF5File.build c2RootCollision) = 1 ∧
    childrenDsetCount c2RootCollision = 2 :=
  ⟨rfl, rfl, rfl, rfl, rfl⟩

/-- C2 (amended): for a wellformed container whose root-level inserted
names are distinct, the loaded tree is `descrRoot`: top-level datasets
become leaves under their own names, a top-level group's children are
spliced directly into the root map (the group's own name produces no
entry), a group child of a group produces a nested mapping of its
subtree under its own name, and a dataset child of a group produces
under its own name a nested mapping holding the leaf under the same name
again; the tree's leaf shapes and leaf count still equal the container's
dataset shapes and dataset count. -/
theorem c2_load_structure (root : List (String × HObj))
    (h1 : wfChildren root = true)
    (h2 : distinctKeys (rootInsertedKeys root) = true) :
    HDF5File.build root = descrRoot root ∧
    nodeMapLeafShapes (HDF5File.build root) = childrenDsetShapes root ∧
    nodeMapLeafCount (HDF5File.build root) = childrenDsetCount root := by
  have hb : HDF5File.build root = descrRoot root := by
    have h := load_descr root [] h1 h2 (fun k _ => rfl)
    simpa using h
  refine ⟨hb, ?_, ?_⟩
  · rw [hb, leafShapes_descrRoot]
  · show (nodeMapLeafShapes (HDF5File.build root)).length = _
    rw [hb, leafShapes_descrRoot]
    rfl

/-- A wellformed fixture container: a top-level integer dataset, and a
top-level group holding a float dataset and a nested group with an
integer dataset. -/
def c2WitnessRoot : List (String × HObj) :=
  [("a", .dset .integer [1]),
   ("g", .group [("b", .dset .float [2, 3]), ("h", .group [("c", .dset .integer [4])])])]

/-- Witness for `c2_load_structure` at the fixture container. -/
theorem c2_load_structure_witness :
    wfChildren c2WitnessRoot = true ∧
    distinctKeys (rootInsertedKeys c2WitnessRoot) = true ∧
    HDF5File.build c2WitnessRoot = descrRoot c2WitnessRoot ∧
    nodeMapLeafShapes (HDF5File.build c2WitnessRoot) = childrenDsetShapes c2WitnessRoot ∧
    nodeMapLeafCount (HDF5File.build c2WitnessRoot) = childrenDsetCount c2WitnessRoot :=
  ⟨rfl, rfl, (c2_load_structure c2WitnessRoot rfl rfl).1,
    (c2_load_structure c2WitnessRoot rfl rfl).2.1,
    (c2_load_structure c2WitnessRoot rfl rfl).2.2⟩

/-! ## Claim C3 -/

/-- C3: for every environment — in particular for every planner, whether
its responses report success or failure — the response list returned by
`plan_linearly` is exactly the sequence of responses the planner
returned, unchanged and in order, one per goal: no response is filtered,
modified or followed by an early exit on failure. -/
theorem c3_responses_unfiltered (env : TMPEnv) (robot : Robot)
    (request : MotionPlanRequest) (goals : List (List Val)) :
    (plan_linearly env robot request goals).responses =
      plannerResponsesOf (plan_linearly env robot request goals).trace ∧
    (plan_linearly env robot request goals).responses.length = goals.length :=
  ⟨planLoop_responses_eq_trace env goals robot request (tmp ++ request.startStatePosition),
    planLoop_responses_length env goals robot request (tmp ++ request.startStatePosition)⟩

/-! ## Claim C4 -/

/-- C4: for every input goal list, including the empty one, the response
list returned by `plan_linearly` has exactly the input's length. -/
theorem c4_response_count (env : TMPEnv) (robot : Robot)
    (request : MotionPlanRequest) (goals : List (List Val)) :
    (plan_linearly env robot request goals).responses.length = goals.length :=
  planLoop_responses_length env goals robot request (tmp ++ request.startStatePosition)

/-! ## Claim C5 -/

/-- C5: `getDataProperties` yields a defined (PredType, element size,
name) triple exactly for the integer and float type classes — with the
concrete triples `(NATIVE_INT, sizeof(int), "integer")` and
`(NATIVE_DOUBLE, sizeof(double), "double")` — and for every other type
class it falls through to an undefined result rather than an error. -/
theorem c5_data_properties :
    (∀ t : H5TClass, (getDataProperties t).isSome = true ↔
      t = .integer ∨ t = .float) ∧
    getDataProperties .integer = some (.nativeInt, 4, "integer") ∧
    getDataProperties .float = some (.nativeDouble, 8, "double") := by
  refine ⟨fun t => ?_, rfl, rfl⟩
  cases t with
  | integer => simp [getDataProperties]
  | float => simp [getDataProperties]
  | other tag => simp [getDataProperties]

/-! ## Claim C6 -/

/-- C6: the collaborator invocations of `plan_linearly` are, goal by goal
in input order: the constraint-helper callback, then the
scene-graph-helper callback, then exactly one planner call. -/
theorem c6_callback_order (env : TMPEnv) (robot : Robot)
    (request : MotionPlanRequest) (goals : List (List Val)) :
    (plan_linearly env robot request goals).trace.map TEvent.kind =
      (goals.map fun g => [TEventKind.constraintK g, TEventKind.sceneGraphK g,
        TEventKind.plannerK g]).flatten :=
  planLoop_trace_kinds env goals robot request (tmp ++ request.startStatePosition)

/-! ## Claim C7 -/

/-- C7: the node tree is the one built by the constructor's depth-first
traversal, and no sequence of public-interface calls (`getDims`,
`getData`, `getStatus`) changes it. -/
theorem c7_tree_immutable (root : List (String × HObj)) (ops : List H5Op) :
    runOps (HDF5File.build root) ops = HDF5File.build root :=
  runOps_id ops (HDF5File.build root)

/-! ## Claim C8 -/

/-- C8: after any call to `setGoalConfiguration` or `setGoalRegion` —
whatever goal constraints the request held before — the request's goal
constraint list is exactly the one freshly constructed entry. -/
theorem c8_single_goal_constraint (req : MotionPlanRequest) (joints : List Val)
    (eeName baseName : String) :
    (MotionRequestBuilder.setGoalConfiguration req joints).goalConstraints =
      [.ofConfiguration joints] ∧
    (MotionRequestBuilder.setGoalRegion req eeName baseName).goalConstraints =
      [.ofRegion eeName baseName] ∧
    (MotionRequestBuilder.setGoalConfiguration req joints).goalConstraints.length = 1 ∧
    (MotionRequestBuilder.setGoalRegion req eeName baseName).goalConstraints.length = 1 :=
  ⟨rfl, rfl, rfl, rfl⟩

/-! ## Claim C9 -/

/-- C9: with no planning backend available, `plan` fails gracefully:
`PipelinePlanner::plan` returns the default-constructed response without
invoking the pipeline when `pipeline_` is unset, and
`OMPLInterfacePlanner::plan` returns a response whose error code is
`FAILURE` without invoking `solve` when no planning context is obtained. -/
theorem c9_no_backend_failure (p : PipelinePlanner) (q : OMPLInterfacePlanner)
    (scene : Scene) (request : MotionPlanRequest)
    (h1 : p.pipeline = none)
    (h2 : q.getPlanningContext scene request = none) :
    p.plan scene request = (defaultResponse, false) ∧
    q.plan scene request = ({ defaultResponse with errorCode := FAILURE }, false) := by
  constructor
  · simp [PipelinePlanner.plan, h1]
  · simp [OMPLInterfacePlanner.plan, h2]

/-- Witness for `c9_no_backend_failure` at concrete backendless planners. -/
theorem c9_no_backend_failure_witness :
    PipelinePlanner.plan ⟨none⟩ ⟨0⟩ { startStatePosition := [], goalConstraints := [] } =
      (defaultResponse, false) ∧
    OMPLInterfacePlanner.plan ⟨fun _ _ => none⟩ ⟨0⟩
      { startStatePosition := [], goalConstraints := [] } =
      ({ defaultResponse with errorCode := FAILURE }, false) :=
  c9_no_backend_failure ⟨none⟩ ⟨fun _ _ => none⟩ ⟨0⟩
    { startStatePosition := [], goalConstraints := [] } rfl rfl

/-! ## Claim C10 -/

/-- C10: the robot's observable state survives each iteration of
`plan_linearly` unchanged — the iteration body `planStep` saves the
state, sets it to the response's final joint positions only to read back
a full joint vector, and restores the saved value — and consequently the
robot leaves any full run of the loop in the state it entered with. -/
theorem c10_robot_state_unchanged (env : TMPEnv) (robot : Robot)
    (request : MotionPlanRequest) (nextStart goalConf : List Val)
    (goals : List (List Val)) :
    (planStep env robot request nextStart goalConf).2.1.getState = robot.getState ∧
    (planLoop env robot request nextStart goals).robotF.getState = robot.getState ∧
    (plan_linearly env robot request goals).robotF.getState = robot.getState := by
  refine ⟨restore_getState robot _, ?_, ?_⟩
  · obtain ⟨hj, hv⟩ := planLoop_robot_preserved env goals robot request nextStart
    show (planLoop env robot request nextStart goals).robotF.joints.map _ =
      robot.joints.map robot.values
    rw [hj]
    exact List.map_congr_left hv
  · obtain ⟨hj, hv⟩ := planLoop_robot_preserved env goals robot request
      (tmp ++ request.startStatePosition)
    show (planLoop env robot request (tmp ++ request.startStatePosition)
      goals).robotF.joints.map _ = robot.joints.map robot.values
    rw [hj]
    exact List.map_congr_left hv

end Robowflex
